import Mathlib

/-!
A verification development for the foliadocserve document server
(src/foliadocserve.py).  The Python source is shallowly embedded:
pure fragments become Lean functions, the mutable session tracker and
document store become explicit state passing, and fallible code returns
`Except`.  Line numbers in doc comments refer to src/foliadocserve.py.
-/

namespace FoliaDocServe

/-! ## FQL query parser (parsequery, parseactor, parseassignments) -/

/-- Value stored in the assignments mapping of an edit instruction.
`str` holds the string-valued fields; `numstr` holds the raw token of a
`confidence` assignment (the source converts it with Python `float`,
which is irrelevant to every claim settled here); `boolv` holds the
`split`/`merge` markers (stored as `True` in the source). -/
inductive AVal where
  | str (s : String)
  | numstr (s : String)
  | boolv (b : Bool)
deriving DecidableEq, Repr

/-- The actor of an edit instruction (source: the `edit['actor']` dict,
filled at lines 452-458).  A field is `none` when the corresponding dict
key is absent; the source only stores truthy (non-empty) strings. -/
structure Actor where
  type? : Option String := none
  set? : Option String := none
  id? : Option String := none
deriving DecidableEq, Repr

/-- An edit instruction (source: the `edit` dict initialised at line 404).
The `datetime` field of the source (a wall-clock timestamp) is omitted:
no claim depends on it. -/
structure Edit where
  editform : String := "direct"
  targets : List String := []
  actor : Actor := {}
  assignments : List (String × AVal) := []
  action? : Option String := none
  correctionset? : Option String := none
  correctionclass? : Option AVal := none
deriving DecidableEq, Repr

/-- Document key: (namespace, document id). -/
abbrev DocKey := String × String

/-- The accumulating `data` mapping threaded through `parsequery` calls:
document key to list of edit instructions.  Python dicts preserve
insertion order, so an ordered association list is used; new keys are
appended at the end (line 478). -/
abbrev DataMap := List (DocKey × List Edit)

/-- Ordered-dict lookup: first (and in an untouched `DataMap` only)
binding of the key. -/
def lookupData : DataMap → DocKey → Option (List Edit)
  | [], _ => none
  | kv :: rest, k => if kv.1 = k then some kv.2 else lookupData rest k

/-- Python-dict-style update of an assignments mapping: an existing key
keeps its position and gets the new value, a new key is appended. -/
def setassign : List (String × AVal) → String → AVal → List (String × AVal)
  | [], k, v => [(k, v)]
  | kv :: rest, k, v =>
    if kv.1 = k then (k, v) :: rest else kv :: setassign rest k v

/-- Lookup in an assignments mapping. -/
def lookupAssign : List (String × AVal) → String → Option AVal
  | [], _ => none
  | kv :: rest, k => if kv.1 = k then some kv.2 else lookupAssign rest k

/-- Slice `cs[a:b]` of a character list, as in Python string slicing with
`0 ≤ a ≤ b ≤ length`. -/
def sliceStr (cs : List Char) (a b : Nat) : String :=
  String.mk ((cs.drop a).take (b - a))

/-- Python `word.lower()` (kept kernel-computable by working on the
character list). -/
def pyLower (s : String) : String :=
  String.mk (s.toList.map Char.toLower)

/-- Tokenizer loop of `parsequery` (lines 379-396): scans the query one
character at a time, splitting on spaces outside double quotes and
stripping a closing quote that immediately precedes a space.  `cs` is
the full character list (the query with a space appended), the first
list argument is the not-yet-scanned suffix, `i` the current index,
`b` the `begin` index of the current word and `inq` the in-quote flag. -/
def tokloop (cs : List Char) : List Char → Nat → Nat → Bool → List String → List String
  | [], _, _, _, acc => acc.reverse
  | c :: rest, i, b, inq, acc =>
    if c = '"' then
      if !inq then tokloop cs rest (i+1) (i+1) true acc
      else tokloop cs rest (i+1) b false acc
    else if c = ' ' && !inq then
      let word :=
        if i > 1 && cs.getD (i-1) ' ' == '"' then sliceStr cs b (i-1)
        else sliceStr cs b i
      tokloop cs rest (i+1) (i+1) inq (word :: acc)
    else tokloop cs rest (i+1) b inq acc

/-- Word list of an FQL query (lines 379-396; the source first appends a
space to the query so the final word is flushed). -/
def tokenize (query : String) : List String :=
  let cs := (query ++ " ").toList
  tokloop cs cs 0 0 false []

/-- The XML tag names recognised as annotation types (the source checks
membership in `folia.XML2CLASS`, line 324, a constant of the external
FoLiA library).  Modelled as the subset of the library's key set that
any claim exercises, plus a few common tags; membership of each
individual tag mirrors the library, and no claim depends on a tag
outside this list. -/
def xml2classKeys : List String :=
  ["t", "pos", "lemma", "sense", "entity", "w", "s", "p", "correction",
   "errordetection", "chunk", "su", "dependency", "coreferencechain"]

/-- Model of `parseactor` (lines 320-339): reads the annotation type at
`words[i+1]` and an optional `OF set` / `ID id` qualifier; returns the
type, set, id and the number of words to skip. -/
def parseactor (words : List String) (i : Nat) :
    Except String (String × Option String × Option String × Nat) :=
  if words.length ≤ i + 1 then
    .error "Expected annotation type, got end of query"
  else
    let w1 := words.getD (i+1) ""
    if w1 ∈ xml2classKeys then
      if words.length > i + 3 then
        let w2 := words.getD (i+2) ""
        let w3 := words.getD (i+3) ""
        if w2 = "OF" then .ok (w1, some w3, none, 3)
        else if w2 = "ID" then .ok (w1, none, some w3, 3)
        else .ok (w1, none, none, 1)
      else .ok (w1, none, none, 1)
    else .error ("No such annotation type: " ++ w1)

/-- Field names taking a string value in a WITH clause (line 353). -/
def strFields : List String :=
  ["class", "annotator", "annotatortype", "id", "n", "text",
   "insertleft", "insertright"]

/-- Loop of `parseassignments` (lines 341-370).  The first list argument
is the suffix `words[i+j:]`, `j` the enumeration index, `skip` the
pending `skipwords`, `processed` the `processedwords` counter and `asg`
the accumulated assignments.  An out-of-range value access (Python
`words[i+j+1]`) is modelled as a distinct error, mirroring the
uncaught `IndexError` the source would raise. -/
def paLoop (words : List String) (i : Nat) :
    List String → Nat → Nat → Nat → List (String × AVal) →
    Except String (List (String × AVal) × Nat)
  | [], _, _, processed, asg => .ok (asg, processed)
  | w :: rest, j, skip, processed, asg =>
    if skip > 0 then paLoop words i rest (j+1) (skip-1) (processed+1) asg
    else if w = "FOR" then .ok (asg, processed)
    else if pyLower w ∈ strFields then
      if i + j + 1 < words.length then
        paLoop words i rest (j+1) 1 (processed+1)
          (setassign asg (pyLower w) (.str (words.getD (i+j+1) "")))
      else .error "IndexError: list index out of range"
    else if pyLower w = "confidence" then
      if i + j + 1 < words.length then
        paLoop words i rest (j+1) 1 (processed+1)
          (setassign asg "confidence" (.numstr (words.getD (i+j+1) "")))
      else .error "IndexError: list index out of range"
    else if pyLower w = "split" ∨ pyLower w = "merge" then
      paLoop words i rest (j+1) skip (processed+1)
        (setassign asg (pyLower w) (.boolv true))
    else if w = "," then .ok (asg, processed+1)
    else .error ("Unknown variable in WITH statement: " ++ w)

/-- Model of `parseassignments` (lines 341-370): parses the
field/value list starting at `words[i]`, returning the assignments and
the number of processed words. -/
def parseassignments (words : List String) (i : Nat) :
    Except String (List (String × AVal) × Nat) :=
  paLoop words i (words.drop i) 0 0 0 []

/-- Parser loop state of `parsequery` (lines 400-404): current clause
mode, pending skip count, the (dead) `endclause` bookkeeping, the edit
being built, and the accumulating document mapping. -/
structure PState where
  mode : Option String := none
  skipwords : Nat := 0
  endclause : Option Nat := none
  edit : Edit := {}
  pdata : DataMap := []
deriving Repr

/-- The `endclause` computation of the AS branch (lines 424-427): the
last comma in `words[i+1 : len(words)-1]`, minus one.  This value is
never read by any later branch (dead state), but is kept for fidelity. -/
def endclauseCalc (words : List String) (i : Nat) : Option Nat :=
  (((List.range words.length).filter
      (fun j => decide (i + 1 ≤ j) && decide (j + 1 < words.length) &&
                (words.getD j "" == ","))).getLast?).map (fun j => j - 1)

/-- Model of the AS clause handling (lines 422-447): `AS CORRECTION OF
set [WITH ...]` or `AS ALTERNATIVE`.  Out-of-range `words[...]`
accesses are modelled as errors (uncaught `IndexError` in the
source). -/
def stepAS (words : List String) (i : Nat) (st : PState) : Except String PState :=
  let st := { st with endclause := endclauseCalc words i }
  match words.get? (i+1) with
  | none => .error "IndexError: list index out of range"
  | some w1 =>
    if w1 = "CORRECTION" then
      let st := { st with edit := { st.edit with editform := "correction" } }
      match words.get? (i+2) with
      | none => .error "IndexError: list index out of range"
      | some w2 =>
        if w2 ≠ "OF" then .error "Expected AS CORRECTION OF $set"
        else
          match words.get? (i+3) with
          | none => .error "IndexError: list index out of range"
          | some w3 =>
            let st := { st with
              edit := { st.edit with correctionset? := some w3 }, skipwords := 3 }
            match words.get? (i+4) with
            | none => .error "IndexError: list index out of range"
            | some w4 =>
              if w4 = "WITH" then
                match parseassignments words (i+5) with
                | .error e => .error e
                | .ok (cas, extraskip) =>
                  let st := { st with skipwords := 4 + extraskip }
                  match lookupAssign cas "class" with
                  | some v =>
                    .ok { st with edit := { st.edit with correctionclass? := some v } }
                  | none => .ok st
              else .ok st
    else if w1 = "ALTERNATIVE" then
      .ok { st with edit := { st.edit with editform := "alternative" }, skipwords := 1 }
    else .error "Expected CORRECTION/ALTERNATIVE after AS"

/-- Model of line 463 of the source: `edit['actor']['type'] is
folia.TextContent`.  The actor's type is the annotation-type STRING
returned by `parseactor` (e.g. `"t"`), and comparing a string with the
class object `folia.TextContent` using Python `is` is false for every
string, so this predicate is constantly `false`; the branch it guards
(line 464, `assignments['text'] = ""`) is unreachable. -/
def actorTypeIsTextContent (_ty : String) : Bool := false

/-- Model of the ADD/EDIT/DELETE clause handling (lines 448-466):
records the action, parses the actor, stores only truthy fields, forces
edit-form `new` for ADD, and for DELETE pre-sets the empty-class (or,
per the dead branch of line 463, empty-text) assignment. -/
def stepAction (words : List String) (i : Nat) (w : String) (st : PState) :
    Except String PState :=
  let st := { st with edit := { st.edit with action? := some (pyLower w) } }
  match parseactor words i with
  | .error e => .error e
  | .ok (atype, aset, aid, skip) =>
    let ed := st.edit
    let ed := if atype ≠ "" then { ed with actor := { ed.actor with type? := some atype } } else ed
    let ed := match aset with
      | some s => if s ≠ "" then { ed with actor := { ed.actor with set? := some s } } else ed
      | none => ed
    let ed := match aid with
      | some s => if s ≠ "" then { ed with actor := { ed.actor with id? := some s } } else ed
      | none => ed
    let ed :=
      if w = "ADD" then { ed with editform := "new" }
      else if w = "DELETE" then
        if actorTypeIsTextContent (ed.actor.type?.getD "") then
          { ed with assignments := setassign ed.assignments "text" (.str "") }
        else
          { ed with assignments := setassign ed.assignments "class" (.str "") }
      else ed
    .ok { st with edit := ed, skipwords := skip }

/-- Model of the WITH clause handling (lines 467-470): parse the
assignments after the keyword and merge them into the edit. -/
def stepWITH (words : List String) (i : Nat) (st : PState) : Except String PState :=
  match parseassignments words (i+1) with
  | .error e => .error e
  | .ok (asg, skip) =>
    .ok { st with
            skipwords := skip,
            edit := { st.edit with
                        assignments := asg.foldl
                          (fun acc kv => setassign acc kv.1 kv.2)
                          st.edit.assignments } }

/-- Loop of `splitOnce`: accumulate characters until the first slash. -/
def splitOnceAux : List Char → List Char → Option (String × String)
  | _, [] => none
  | acc, c :: rest =>
    if c = '/' then some (String.mk acc.reverse, String.mk rest)
    else splitOnceAux (c :: acc) rest

/-- Python `word.split('/', 1)` followed by two-way unpacking: split at
the first slash only; `none` when no slash occurs (the source's tuple
unpacking then raises, caught and re-raised as a parse error at
line 476). -/
def splitOnce (s : String) : Option (String × String) :=
  splitOnceAux [] s.toList

/-- Model of a document selector inside an IN clause (lines 472-478):
split `namespace/docid` and register the key with an empty edit list if
it is not yet in the mapping. -/
def stepIN (w : String) (st : PState) : Except String PState :=
  match splitOnce w with
  | none => .error "Expected \"namespace/documentID\" after IN statement"
  | some (ns, docid) =>
    if (lookupData st.pdata (ns, docid)).isSome then .ok st
    else .ok { st with pdata := st.pdata ++ [((ns, docid), [])] }

/-- The endclause-reset step of lines 411-412: a pending `endclause`
at or before the current index is cleared. -/
def clearEndclause (st : PState) (i : Nat) : PState :=
  match st.endclause with
  | some e => if e ≤ i then { st with endclause := none } else st
  | none => st

/-- Main word loop of `parsequery` (lines 406-482).  The first list
argument is the not-yet-processed suffix of `words`, `i` the index of
its head in `words`. -/
def mainloop (words : List String) : List String → Nat → PState → Except String PState
  | [], _, st => .ok st
  | w :: rest, i, st =>
    if st.skipwords > 0 then
      mainloop words rest (i+1) { st with skipwords := st.skipwords - 1 }
    else
      let st := clearEndclause st i
      if w = "IN" ∨ w = "ADD" ∨ w = "EDIT" ∨ w = "DELETE" ∨
         w = "WITH" ∨ w = "FOR" ∨ w = "AS" then
        if st.mode = none ∧ w ≠ "IN" then
          .error "FQL Query must start with IN statement!"
        else
          let st := { st with mode := some w }
          if w = "AS" then
            match stepAS words i st with
            | .error e => .error e
            | .ok st' => mainloop words rest (i+1) st'
          else if w = "ADD" ∨ w = "EDIT" ∨ w = "DELETE" then
            match stepAction words i w st with
            | .error e => .error e
            | .ok st' => mainloop words rest (i+1) st'
          else if w = "WITH" then
            match stepWITH words i st with
            | .error e => .error e
            | .ok st' => mainloop words rest (i+1) st'
          else mainloop words rest (i+1) st
      else if st.mode = some "IN" then
        match stepIN w st with
        | .error e => .error e
        | .ok st' => mainloop words rest (i+1) st'
      else if st.mode = some "FOR" then
        mainloop words rest (i+1)
          { st with edit := { st.edit with targets := st.edit.targets ++ [w] } }
      else .error ("Expected statement, got " ++ w)

/-- Model of `parsequery` (lines 374-500): tokenize, run the word loop
on the accumulating mapping, run the final validations (lines 485-493)
and append the parsed edit to the list of every document key in the
mapping (lines 497-498). -/
def parsequery (query : String) (pdata : DataMap) : Except String DataMap :=
  let words := tokenize query
  let st0 : PState := { pdata := pdata }
  match mainloop words words 0 st0 with
  | .error e => .error e
  | .ok st =>
    if st.pdata.length = 0 then
      .error "No documents specified in IN statement!"
    else if st.edit.action?.getD "" = "" then
      .error "Expected action statement EDIT, ADD or DELETE"
    else if st.edit.targets.length = 0 ∧ st.edit.actor.id? = none then
      .error "No targets found (no FOR statement?), but no ID was provided either on the actor"
    else if st.edit.actor.type?.getD "" = "" then
      .error "Expected action statement EDIT, ADD or DELETE"
    else .ok (st.pdata.map (fun kv => (kv.1, kv.2 ++ [st.edit])))

/-! ## Annotation-set resolution of the edit engine (doannotation, lines 573-592) -/

/-- The part of a loaded FoLiA document that set resolution reads:
`doc.annotations`, the ordered list of declared (annotation type, set)
pairs, and `doc[id].set`, the set of the element with a given id
(`none` models a missing id, on which the source's `doc[...]` raises
`KeyError`).  The tree-structured document object is an external
collaborator of the server (spec section 1), so only this interface is
embedded. -/
structure MiniDoc where
  annotations : List (String × String)
  elemset : String → Option String

/-- Declaration scan of lines 578-585: walk `doc.annotations`, counting
declarations of the wanted type in `found` and remembering the set of
the most recent match in `cur`; a second match aborts with the
ambiguous-set error.  (The source assigns the set before testing
`found > 1`; the assignment on the aborting iteration is unobservable
and is elided here.) -/
def scanDecls (ty : String) : List (String × String) → Nat → Option String →
    Except String (Nat × Option String)
  | [], found, cur => .ok (found, cur)
  | p :: rest, found, cur =>
    if p.1 = ty then
      if found + 1 > 1 then
        .error ("No set was specified for type " ++ ty ++
          ", but the document has multiple ambiguous options, unable to resolve automatically")
      else scanDecls ty rest (found + 1) (some p.2)
    else scanDecls ty rest found cur

/-- Resolution when the actor has neither an explicit set nor a usable
id (lines 577-587): one declared set of the type wins, several fail,
none yields the sentinel `"undefined"`. -/
def resolveFromDecls (doc : MiniDoc) (ty : String) : Except String String :=
  match scanDecls ty doc.annotations 0 none with
  | .error e => .error e
  | .ok (found, cur) =>
    if found = 0 then .ok "undefined" else .ok (cur.getD "undefined")

/-- Set resolution of lines 573-587: an absent or `'null'` set is
resolved by inheriting from an explicit (truthy) actor id's element,
else from the document's declarations.  An explicit set is kept as is. -/
def resolveset (doc : MiniDoc) (ty : String) (actorSet actorId : Option String) :
    Except String String :=
  let noExplicit :=
    match actorId with
    | some i =>
      if i ≠ "" then
        match doc.elemset i with
        | some s => .ok s
        | none => .error ("KeyError: " ++ i)
      else resolveFromDecls doc ty
    | none => resolveFromDecls doc ty
  match actorSet with
  | some s => if s = "null" then noExplicit else .ok s
  | none => noExplicit

/-- Auto-declaration of lines 589-592: a resolved set other than the
`"undefined"` sentinel is declared on the document if not already
declared (`doc.declare` of the FoLiA library appends the pair). -/
def declarestep (doc : MiniDoc) (ty s : String) : MiniDoc :=
  if s ≠ "undefined" then
    if (ty, s) ∈ doc.annotations then doc
    else { doc with annotations := doc.annotations ++ [(ty, s)] }
  else doc

/-- Whole set-resolution step per edit instruction (lines 573-592):
resolve, then auto-declare. -/
def resolveAndDeclare (doc : MiniDoc) (ty : String) (actorSet actorId : Option String) :
    Except String (String × MiniDoc) :=
  match resolveset doc ty actorSet actorId with
  | .error e => .error e
  | .ok s => .ok (s, declarestep doc ty s)

/-! ## Text split of the edit engine (doannotation, lines 718-736) -/

/-- A structural token as the split branch sees it: a stable id and the
text content.  Generated ids (`generate_id_in`) do not matter to the
split claim, so a freshly built token is produced by an abstract
constructor function. -/
structure Tok where
  tid : String
  txt : List Char
deriving DecidableEq, Repr

/-- Python `text.split(' ')` on a character list: split at every single
space, keeping empty pieces, with `"".split(' ') == ['']`. -/
def pysplit : List Char → List (List Char)
  | [] => [[]]
  | c :: rest =>
    if c = ' ' then [] :: pysplit rest
    else
      match pysplit rest with
      | w :: ws => (c :: w) :: ws
      | [] => [[c]]

/-- Concatenation with a single space between pieces (the inverse
reading of `pysplit`, used to state the split round trip). -/
def joinSpace : List (List Char) → List Char
  | [] => []
  | [w] => w
  | w :: ws => w ++ ' ' :: joinSpace ws

/-- Python `p.data.index(target)`: index of the first child with the
target's id (element equality is identity; ids are unique within a
document). -/
def indexOfTok : List Tok → String → Option Nat
  | [], _ => none
  | t :: rest, tid =>
    if t.tid = tid then some 0 else (indexOfTok rest tid).map (· + 1)

/-- Model of the split branch (lines 718-736): find the target's index
among its parent's children (`ValueError` becomes the insertion-index
error of line 727), remove the child at that index, then insert one new
token per word of the assigned text at that index, iterating the words
in reverse as the source does.  `mk` models
`ElementClass(doc, folia.TextContent(doc, value=wordtext), generate_id_in=p)`,
the construction of a fresh token carrying one word. -/
def splitApply (pdata : List Tok) (tid : String) (text : List Char)
    (mk : List Char → Tok) : Except String (List Tok) :=
  match indexOfTok pdata tid with
  | none => .error "Unable to find insertion index"
  | some i =>
    let removed := pdata.take i ++ pdata.drop (i+1)
    .ok ((pysplit text).reverse.foldl
      (fun acc w => acc.take i ++ mk w :: acc.drop i) removed)

/-! ## New span annotation of the edit engine (doannotation, lines 533-567 and 879-897) -/

/-- An annotation layer under a structural element: the layer's
annotation type, its set attribute, and its span children, each a
(class, referenced token ids) pair.  This embeds the interface of the
external FoLiA tree (layer lookup by type and set, append at end of
children, `wrefs()` returning the referenced tokens in stored order). -/
structure SpanLayer where
  latype : String
  laset : Option String
  spans : List (String × List String)
deriving DecidableEq, Repr

/-- The filter used by `doc[commonancestor].layers(annotationtype, set)`
(line 888): layers of the given annotation type whose set attribute
equals the resolved set. -/
def layerMatches (ty aset : String) (l : SpanLayer) : Bool :=
  l.latype == ty && l.laset == some aset

/-- Appending a span to the first matching layer: the source mutates
`layers[0]`, the first matching child, in place (line 894).  Rendered
functionally: the first child satisfying the predicate gets the span
appended to its children, everything else is unchanged. -/
def appendToFirstMatch : List SpanLayer → (SpanLayer → Bool) →
    (String × List String) → List SpanLayer
  | [], _, _ => []
  | l :: rest, p, sp =>
    if p l then { l with spans := l.spans ++ [sp] } :: rest
    else l :: appendToFirstMatch rest p sp

/-- Model of lines 888-894 on one structural node: reuse the first
existing layer of the type and set if any (`len(layers) >= 1`),
otherwise append one new layer (created by
`append(folia.ANNOTATIONTYPE2LAYERCLASS[annotationtype])`, hence with
no set attribute of its own); then append to the chosen layer one span
of the given class referencing the targets in order. -/
def spanNewNode (ls : List SpanLayer) (ty aset cls : String)
    (targets : List String) : List SpanLayer :=
  if (ls.filter (layerMatches ty aset)).length ≥ 1 then
    appendToFirstMatch ls (layerMatches ty aset) (cls, targets)
  else ls ++ [{ latype := ty, laset := none, spans := [(cls, targets)] }]

/-- Common-ancestor computation of lines 533-555: each target
contributes the ordered id chain of its structural ancestors (nearest
first); the chain of the first target is filtered down to the ids
present in every other chain, preserving its order, and the head of the
result is the anchor (`commonancestors[0]`, line 552).  For a single
target (lines 556-565) the source takes the target's nearest structural
ancestor, which coincides with the head of its own chain. -/
def commonAncestorOf : List (List String) → Option String
  | [] => none
  | c :: rest =>
    (rest.foldl (fun acc anc => acc.filter (fun a => decide (a ∈ anc))) c).head?

/-- Model of the span-`new` edit form on a whole document, given the
ancestor chains of the (already resolved) targets and the map from
structural-element id to its layer children: the node at the common
ancestor is rewritten by `spanNewNode`, every other node is untouched.
`none` when the ancestor chains have an empty intersection (the source
then leaves `commonancestor` unbound). -/
def spanNewStep (docmap : String → List SpanLayer) (chains : List (List String))
    (ty aset cls : String) (targets : List String) :
    Option (String → List SpanLayer) :=
  match commonAncestorOf chains with
  | none => none
  | some a =>
    some (fun x => if x = a then spanNewNode (docmap x) ty aset cls targets
                   else docmap x)

/-! ## Document store idle sweep (DocStore.autounload, lines 152-159) -/

/-- Selection loop of `autounload` (lines 153-156), verbatim: a resident
document key is scheduled for unloading exactly when its last-change
timestamp `t` satisfies `t > time.time() + self.expiretime`.  (Each
selected key is then passed to `unload`, which saves and evicts.) -/
def autounloadKeys (lastchange : List (DocKey × Nat)) (now expiretime : Nat) :
    List DocKey :=
  (lastchange.filter (fun kt => decide (kt.2 > now + expiretime))).map Prod.fst

/-- Spec reading of the sweep, for comparison with `autounloadKeys`
(spec section 4.2: "evicts every Document whose last-change timestamp is
older than a configured idle threshold", i.e. last change earlier than
now minus the expiry time). -/
def autounloadKeysSpec (lastchange : List (DocKey × Nat)) (now expiretime : Nat) :
    List DocKey :=
  (lastchange.filter (fun kt => decide (kt.2 + expiretime < now))).map Prod.fst

/-! ## Session tracker (DocStore.updateq / DocStore.lastaccess and the Root handlers) -/

/-- Session identifier. -/
abbrev Sid := String

/-- The concurrency state of the document store: per document key and
session id, the pending update queue (`self.docstore.updateq`) and the
last-access timestamp (`self.docstore.lastaccess`).  The nested Python
defaultdicts are rendered as total functions into `Option`: `none`
means the session has no entry.  (The defaultdicts also materialise
empty inner dicts on read; that is unobservable through this
interface.) -/
structure Tracker where
  updateq : DocKey → Sid → Option (List String)
  lastaccess : DocKey → Sid → Option Nat

/-- Pointwise update of a nested session map. -/
def fupd {α : Type} (f : DocKey → Sid → α) (k : DocKey) (s : Sid) (v : α) :
    DocKey → Sid → α :=
  fun k' s' => if k' = k ∧ s' = s then v else f k' s'

/-- The tracker with no sessions at all. -/
def emptyTracker : Tracker :=
  { updateq := fun _ _ => none, lastaccess := fun _ _ => none }

/-- The sentinel test of the source, `sid[-5:] != 'NOSID'` negated:
true when the last five characters of the session id are `NOSID`
(Python slicing yields the whole string when it is shorter). -/
def isNoSid (sid : String) : Bool :=
  String.mk (sid.toList.drop (sid.toList.length - 5)) == "NOSID"

/-- Tracker effect of `Root.getdoc` (lines 1012-1017): a non-sentinel
session id gets a fresh last-access timestamp and an empty pending
queue; a sentinel id touches nothing. -/
def getdocTrack (st : Tracker) (key : DocKey) (sid : Sid) (now : Nat) : Tracker :=
  if isNoSid sid then st
  else { st with
          lastaccess := fupd st.lastaccess key sid (some now),
          updateq := fupd st.updateq key sid (some []) }

/-- Tracker effect of lines 1108-1109 of `Root.annotate`: when the
document being edited is the request document, the session's
last-access timestamp is refreshed.  Note the absence of any sentinel
guard here, unlike `getdoc` and `getelements`. -/
def annotateTouch (st : Tracker) (ns docid requestdocid : String) (sid : Sid)
    (now : Nat) : Tracker :=
  if docid = requestdocid then
    { st with lastaccess := fupd st.lastaccess (ns, docid) sid (some now) }
  else st

/-- Enqueue-on-commit of `Root.annotate` (lines 1148-1154): after a
successful edit, every registered session other than the committing one
has the affected element ids appended to its pending queue for that
document. -/
def enqueueUpdates (st : Tracker) (key : DocKey) (sid : Sid) (ids : List String) :
    Tracker :=
  { st with
      updateq := fun k s =>
        if k = key ∧ s ≠ sid then (st.updateq k s).map (· ++ ids)
        else st.updateq k s }

/-- Tracker effect of one loop iteration of `Root.getelements`
(lines 1197-1206) for one element id: a non-sentinel session id gets
its timestamp refreshed and, if it is registered, the element id is
removed from its pending queue (first occurrence; absence is ignored,
as the source swallows the `ValueError`). -/
def gelemStep (st : Tracker) (key : DocKey) (sid : Sid) (eid : String)
    (now : Nat) : Tracker :=
  if isNoSid sid then st
  else
    let st1 : Tracker := { st with lastaccess := fupd st.lastaccess key sid (some now) }
    match st1.updateq key sid with
    | some q => { st1 with updateq := fupd st1.updateq key sid (some (q.erase eid)) }
    | none => st1

/-- Tracker effect of `Root.getelements` over its whole element-id
list. -/
def getelementsTrack : Tracker → DocKey → Sid → List String → Nat → Tracker
  | st, _, _, [], _ => st
  | st, key, sid, eid :: rest, now =>
    getelementsTrack (gelemStep st key sid eid now) key sid rest now

/-- Session-expiry sweep `Root.checkexpireconcurrency`
(lines 1167-1184): every (document, session) pair present in both maps
whose last access lies more than 12 hours (43200 seconds) in the past
is deleted from both maps.  (The source's removal of emptied inner
dicts is unobservable through this interface.) -/
def checkexpire (st : Tracker) (now : Nat) : Tracker :=
  let expired : DocKey → Sid → Bool := fun k s =>
    match st.updateq k s, st.lastaccess k s with
    | some _, some t => decide (now - t > 3600 * 12)
    | _, _ => false
  { updateq := fun k s => if expired k s then none else st.updateq k s,
    lastaccess := fun k s => if expired k s then none else st.lastaccess k s }

/-- Model of `Root.poll` (lines 1226-1240): the `testflat` namespace
never polls; otherwise the expiry sweep runs, and a registered session
has its whole pending queue drained (the stored queue is replaced by
the empty list) and returned; a non-empty drain goes through
`getelements`, whose tracker effect refreshes the session's timestamp.
An unknown session, or one whose queue is empty, yields an empty
result.  The returned id list is the drained queue. -/
def poll (st : Tracker) (ns docid : String) (sid : Sid) (now : Nat) :
    List String × Tracker :=
  if ns = "testflat" then ([], st)
  else
    let st := checkexpire st now
    match st.updateq (ns, docid) sid with
    | none => ([], st)
    | some ids =>
      let st := { st with updateq := fupd st.updateq (ns, docid) sid (some []) }
      if ids.isEmpty then ([], st)
      else (ids, getelementsTrack st (ns, docid) sid ids now)

/-- Extension order on accumulating data mappings: the parser's word
loop either leaves a key's binding untouched or introduces the key
afresh with an empty edit list (the only write to `data` inside the
loop, line 478). -/
def DataExt (d d' : DataMap) : Prop :=
  ∀ k, lookupData d' k = lookupData d k ∨
       (lookupData d k = none ∧ lookupData d' k = some [])

/-- Concrete tracker used to witness the enqueue claim: at document
(n, d), session B is registered with an empty queue and session A is
registered with an empty queue. -/
def trackerAB : Tracker :=
  { updateq := fupd (fupd (fun _ _ => none) ("n", "d") "B" (some []))
      ("n", "d") "A" (some []),
    lastaccess := fun _ _ => none }

/-- Concrete tracker used to witness the poll claim: at document
(n, d), session A is registered with pending queue [e1] and a fresh
last-access timestamp. -/
def trackerPoll : Tracker :=
  { updateq := fupd (fun _ _ => none) ("n", "d") "A" (some ["e1"]),
    lastaccess := fupd (fun _ _ => none) ("n", "d") "A" (some 100) }

/-! ## Helper lemmas about the declaration scan -/

/-- A scan over declarations containing no match of the type returns
its accumulated state unchanged. -/
theorem scanDecls_no_match (ty : String) :
    ∀ (l : List (String × String)) (found : Nat) (cur : Option String),
      l.filter (fun p => decide (p.1 = ty)) = [] →
      scanDecls ty l found cur = .ok (found, cur) := by
  intro l
  induction l with
  | nil => intro found cur _; rfl
  | cons p rest ih =>
    intro found cur h
    by_cases hp : p.1 = ty
    · simp [List.filter_cons, hp] at h
    · simp only [List.filter_cons] at h
      rw [if_neg (by simp [hp])] at h
      simp only [scanDecls, if_neg hp]
      exact ih found cur h

/-- A scan over declarations containing exactly one match of the type
returns that match's set. -/
theorem scanDecls_one (ty s : String) :
    ∀ (l : List (String × String)),
      l.filter (fun p => decide (p.1 = ty)) = [(ty, s)] →
      scanDecls ty l 0 none = .ok (1, some s) := by
  intro l
  induction l with
  | nil => intro h; simp at h
  | cons p rest ih =>
    intro h
    by_cases hp : p.1 = ty
    · simp only [List.filter_cons] at h
      rw [if_pos (by simp [hp])] at h
      obtain ⟨hps, hrest⟩ := List.cons.inj h
      simp only [scanDecls, if_pos hp]
      norm_num
      rw [hps]
      exact scanDecls_no_match ty rest 1 (some s) hrest
    · simp only [List.filter_cons] at h
      rw [if_neg (by simp [hp])] at h
      simp only [scanDecls, if_neg hp]
      exact ih h

/-- A scan that will encounter at least two matches in total aborts
with an error. -/
theorem scanDecls_two (ty : String) :
    ∀ (l : List (String × String)) (found : Nat) (cur : Option String),
      found ≤ 1 →
      2 ≤ found + (l.filter (fun p => decide (p.1 = ty))).length →
      ∃ e, scanDecls ty l found cur = .error e := by
  intro l
  induction l with
  | nil => intro found cur h1 h2; simp at h2; omega
  | cons p rest ih =>
    intro found cur h1 h2
    by_cases hp : p.1 = ty
    · rcases Nat.lt_or_ge found 1 with hf | hf
      · have hf0 : found = 0 := by omega
        subst hf0
        simp only [scanDecls, if_pos hp]
        norm_num
        apply ih 1 (some p.2) (by omega)
        simp only [List.filter_cons] at h2
        rw [if_pos (by simp [hp])] at h2
        simp only [List.length_cons] at h2
        omega
      · have hf1 : found = 1 := by omega
        subst hf1
        simp only [scanDecls, if_pos hp]
        norm_num
    · simp only [List.filter_cons] at h2
      rw [if_neg (by simp [hp])] at h2
      simp only [scanDecls, if_neg hp]
      exact ih found cur h1 h2

/-! ## Claim C2: annotation-set resolution -/

/-- C2: for an edit instruction whose actor carries no explicit set
(absent, or the literal `'null'`): a truthy actor id inherits the set
of that element's existing annotation; otherwise exactly one matching
declared set is used, two or more abort with the ambiguous-set error
(applying nothing), and none yields the `"undefined"` sentinel (with
the document unchanged); and every successfully resolved non-sentinel
set ends up declared on the document. -/
theorem C2_set_resolution (doc : MiniDoc) (ty : String)
    (actorSet actorId : Option String)
    (hnoset : actorSet = none ∨ actorSet = some "null") :
    (∀ i s, actorId = some i → i ≠ "" → doc.elemset i = some s →
        resolveAndDeclare doc ty actorSet actorId = .ok (s, declarestep doc ty s)) ∧
    ((actorId = none ∨ actorId = some "") →
      ((∀ s, doc.annotations.filter (fun p => decide (p.1 = ty)) = [(ty, s)] →
          resolveAndDeclare doc ty actorSet actorId = .ok (s, declarestep doc ty s)) ∧
       (2 ≤ (doc.annotations.filter (fun p => decide (p.1 = ty))).length →
          ∃ e, resolveAndDeclare doc ty actorSet actorId = .error e) ∧
       (doc.annotations.filter (fun p => decide (p.1 = ty)) = [] →
          resolveAndDeclare doc ty actorSet actorId = .ok ("undefined", doc)))) ∧
    (∀ s doc', resolveAndDeclare doc ty actorSet actorId = .ok (s, doc') →
        s ≠ "undefined" → (ty, s) ∈ doc'.annotations) := by
  have hsel : resolveset doc ty actorSet actorId =
      (match actorId with
        | some i =>
          if i ≠ "" then
            match doc.elemset i with
            | some s => .ok s
            | none => .error ("KeyError: " ++ i)
          else resolveFromDecls doc ty
        | none => resolveFromDecls doc ty) := by
    rcases hnoset with h | h <;> subst h <;> simp [resolveset]
  refine ⟨?_, ?_, ?_⟩
  · intro i s hid hne hset
    subst hid
    simp only [resolveAndDeclare, hsel, if_pos hne, hset]
  · intro hid
    have hdecls : resolveset doc ty actorSet actorId = resolveFromDecls doc ty := by
      rcases hid with h | h <;> subst h <;> simp [hsel]
    refine ⟨?_, ?_, ?_⟩
    · intro s hone
      simp [resolveAndDeclare, hdecls, resolveFromDecls, scanDecls_one ty s _ hone]
    · intro htwo
      obtain ⟨e, he⟩ := scanDecls_two ty doc.annotations 0 none (by omega) (by omega)
      exact ⟨e, by simp only [resolveAndDeclare, hdecls, resolveFromDecls, he]⟩
    · intro hnone
      simp [resolveAndDeclare, hdecls, resolveFromDecls,
        scanDecls_no_match ty doc.annotations 0 none hnone, declarestep]
  · intro s doc' hres hs
    have hdoc' : doc' = declarestep doc ty s := by
      cases hr : resolveset doc ty actorSet actorId with
      | error e => simp [resolveAndDeclare, hr] at hres
      | ok s0 =>
        simp only [resolveAndDeclare, hr, Except.ok.injEq] at hres
        obtain ⟨hs0, hd⟩ := Prod.mk.injEq .. ▸ hres
        exact hd ▸ (by rw [← hs0])
    subst hdoc'
    simp only [declarestep, if_pos hs]
    by_cases hmem : (ty, s) ∈ doc.annotations
    · simp only [if_pos hmem]
      exact hmem
    · simp [hmem]

/-- C2, witness: on a document declaring exactly `(pos, cgn)`, an actor
of type `pos` without set or id resolves to `cgn` and the declaration
step leaves the document as is. -/
theorem C2_witness :
    resolveAndDeclare ⟨[("pos", "cgn")], fun _ => none⟩ "pos" none none =
      .ok ("cgn", ⟨[("pos", "cgn")], fun _ => none⟩) := by
  have h := C2_set_resolution ⟨[("pos", "cgn")], fun _ => none⟩ "pos" none none
    (Or.inl rfl)
  exact (h.2.1 (Or.inl rfl)).1 "cgn" rfl

/-! ## Helper lemmas about the accumulating data mapping -/

/-- Ordered-dict lookup distributes over concatenation: the left part
wins when it binds the key. -/
theorem lookupData_append (d1 d2 : DataMap) (k : DocKey) :
    lookupData (d1 ++ d2) k =
      match lookupData d1 k with
      | some v => some v
      | none => lookupData d2 k := by
  induction d1 with
  | nil => simp [lookupData]
  | cons kv rest ih =>
    by_cases hk : kv.1 = k
    · simp [lookupData, hk]
    · simp only [List.cons_append, lookupData, if_neg hk]
      exact ih

/-- Lookup through the final append stage of `parsequery`
(lines 497-498): every bound list gains the edit at its end. -/
theorem lookupData_map_append (e : Edit) :
    ∀ (d : DataMap) (k : DocKey),
      lookupData (d.map (fun kv => (kv.1, kv.2 ++ [e]))) k =
        (lookupData d k).map (· ++ [e]) := by
  intro d
  induction d with
  | nil => intro k; rfl
  | cons kv rest ih =>
    intro k
    by_cases hk : kv.1 = k
    · simp [lookupData, hk]
    · simp only [List.map_cons, lookupData, if_neg hk]
      exact ih k

/-- The extension order is reflexive. -/
theorem DataExt_refl (d : DataMap) : DataExt d d := fun _ => Or.inl rfl

/-- The extension order is transitive. -/
theorem DataExt_trans {d1 d2 d3 : DataMap} (h1 : DataExt d1 d2)
    (h2 : DataExt d2 d3) : DataExt d1 d3 := by
  intro k
  rcases h2 k with ha | ⟨ha, hb⟩
  · rcases h1 k with hc | ⟨hc, hd⟩
    · exact Or.inl (ha.trans hc)
    · exact Or.inr ⟨hc, ha.trans hd⟩
  · rcases h1 k with hc | ⟨hc, hd⟩
    · exact Or.inr ⟨hc ▸ ha, hb⟩
    · rw [hd] at ha
      cases ha

/-- The endclause reset does not touch the data mapping. -/
theorem clearEndclause_pdata (st : PState) (i : Nat) :
    (clearEndclause st i).pdata = st.pdata := by
  unfold clearEndclause
  cases st.endclause with
  | none => rfl
  | some e =>
    simp only
    split <;> rfl

/-- The AS clause does not touch the data mapping. -/
theorem stepAS_pdata (words : List String) (i : Nat) (st st' : PState)
    (h : stepAS words i st = .ok st') : st'.pdata = st.pdata := by
  simp only [stepAS] at h
  repeat' split at h
  all_goals try exact (Except.noConfusion h)
  all_goals (injection h with h2; subst h2; rfl)

/-- The action clause does not touch the data mapping. -/
theorem stepAction_pdata (words : List String) (i : Nat) (w : String)
    (st st' : PState) (h : stepAction words i w st = .ok st') :
    st'.pdata = st.pdata := by
  simp only [stepAction] at h
  repeat' split at h
  all_goals try exact (Except.noConfusion h)
  all_goals (injection h with h2; subst h2; rfl)

/-- The WITH clause does not touch the data mapping. -/
theorem stepWITH_pdata (words : List String) (i : Nat) (st st' : PState)
    (h : stepWITH words i st = .ok st') : st'.pdata = st.pdata := by
  simp only [stepWITH] at h
  repeat' split at h
  all_goals try exact (Except.noConfusion h)
  all_goals (injection h with h2; subst h2; rfl)

/-- A document selector extends the data mapping by at most one new key
bound to the empty list; existing bindings are untouched. -/
theorem stepIN_ext (w : String) (st st' : PState)
    (h : stepIN w st = .ok st') : DataExt st.pdata st'.pdata := by
  simp only [stepIN] at h
  split at h
  · exact (Except.noConfusion h)
  · rename_i ns docid heq
    split at h
    · injection h with h2
      subst h2
      exact DataExt_refl _
    · rename_i hnone
      injection h with h2
      subst h2
      intro k
      by_cases hk : (ns, docid) = k
      · subst hk
        refine Or.inr ⟨Option.not_isSome_iff_eq_none.mp hnone, ?_⟩
        rw [lookupData_append]
        rw [Option.not_isSome_iff_eq_none.mp hnone]
        simp [lookupData]
      · left
        rw [lookupData_append]
        cases hl : lookupData st.pdata k with
        | some v => rfl
        | none => simp [lookupData, hk]

/-- Invariant of the parser's word loop: the data mapping only ever
grows by fresh keys bound to empty lists; bindings present on entry
keep their value. -/
theorem mainloop_ext (words : List String) :
    ∀ (rest : List String) (i : Nat) (st st' : PState),
      mainloop words rest i st = .ok st' → DataExt st.pdata st'.pdata := by
  intro rest
  induction rest with
  | nil =>
    intro i st st' h
    simp only [mainloop] at h
    injection h with h2
    subst h2
    exact DataExt_refl _
  | cons w rest' ih =>
    intro i st st' h
    simp only [mainloop] at h
    split at h
    · have h2 := ih (i+1) _ st' h
      exact h2
    · split at h
      · split at h
        · exact (Except.noConfusion h)
        · split at h
          · -- AS branch
            split at h
            · exact (Except.noConfusion h)
            · rename_i stA hA
              have h1 : stA.pdata = st.pdata :=
                (stepAS_pdata words i _ stA hA).trans (clearEndclause_pdata st i)
              have h2 := ih (i+1) stA st' h
              rw [h1] at h2
              exact h2
          · split at h
            · -- action branch
              split at h
              · exact (Except.noConfusion h)
              · rename_i stA hA
                have h1 : stA.pdata = st.pdata :=
                  (stepAction_pdata words i _ _ stA hA).trans
                    (clearEndclause_pdata st i)
                have h2 := ih (i+1) stA st' h
                rw [h1] at h2
                exact h2
            · split at h
              · -- WITH branch
                split at h
                · exact (Except.noConfusion h)
                · rename_i stA hA
                  have h1 : stA.pdata = st.pdata :=
                    (stepWITH_pdata words i _ stA hA).trans
                      (clearEndclause_pdata st i)
                  have h2 := ih (i+1) stA st' h
                  rw [h1] at h2
                  exact h2
              · -- IN/FOR keyword: state threaded through unchanged
                have h2 := ih (i+1) _ st' h
                have h3 : DataExt (clearEndclause st i).pdata st'.pdata := h2
                rw [clearEndclause_pdata] at h3
                exact h3
      · split at h
        · -- document selector inside IN mode
          split at h
          · exact (Except.noConfusion h)
          · rename_i stA hA
            have h1 : DataExt (clearEndclause st i).pdata stA.pdata :=
              stepIN_ext w _ stA hA
            rw [clearEndclause_pdata] at h1
            exact DataExt_trans h1 (ih (i+1) stA st' h)
        · split at h
          · -- target word inside FOR mode
            have h2 := ih (i+1) _ st' h
            have h3 : DataExt (clearEndclause st i).pdata st'.pdata := h2
            rw [clearEndclause_pdata] at h3
            exact h3
          · exact (Except.noConfusion h)

/-! ## Claim C10: each edit is appended to every accumulated document -/

/-- C10: a successful `parsequery` call appends its parsed edit to the
edit list of every document key bound in the incoming accumulated
mapping — in particular to keys introduced only by earlier statements
of the same batch — because the final loop of lines 497-498 iterates
over the whole mapping, not over the keys named in this statement. -/
theorem C10_batch_append (q : String) (d d' : DataMap)
    (h : parsequery q d = .ok d') :
    ∃ e : Edit, ∀ k es, lookupData d k = some es →
      lookupData d' k = some (es ++ [e]) := by
  simp only [parsequery] at h
  split at h
  · exact (Except.noConfusion h)
  · rename_i st hst
    split at h
    · exact (Except.noConfusion h)
    · split at h
      · exact (Except.noConfusion h)
      · split at h
        · exact (Except.noConfusion h)
        · split at h
          · exact (Except.noConfusion h)
          · injection h with h2
            subst h2
            refine ⟨st.edit, ?_⟩
            intro k es hes
            have hext := mainloop_ext (tokenize q) (tokenize q) 0 _ st hst
            have hst' : lookupData st.pdata k = some es := by
              rcases hext k with h1 | h2
              · rw [h1]
                exact hes
              · rw [hes] at h2
                cases h2.1
            rw [lookupData_map_append st.edit st.pdata k, hst']
            rfl

/-- C10, witness: after parsing `IN ns/doc1 ...` into an accumulated
mapping and then parsing a second statement naming only ns/doc2, the
edit of the second statement is appended to ns/doc1's list as well. -/
theorem C10_witness :
    lookupData
      [(("ns", "doc1"),
        [({} : Edit),
         { editform := "new", targets := ["w.2"],
           actor := { type? := some "lemma", set? := some "lset", id? := none },
           assignments := [("class", .str "x")],
           action? := some "add", correctionset? := none,
           correctionclass? := none }]),
       (("ns", "doc2"),
        [{ editform := "new", targets := ["w.2"],
           actor := { type? := some "lemma", set? := some "lset", id? := none },
           assignments := [("class", .str "x")],
           action? := some "add", correctionset? := none,
           correctionclass? := none }])] ("ns", "doc1") =
      some ([({} : Edit)] ++
        [{ editform := "new", targets := ["w.2"],
           actor := { type? := some "lemma", set? := some "lset", id? := none },
           assignments := [("class", .str "x")],
           action? := some "add", correctionset? := none,
           correctionclass? := none }]) := by
  obtain ⟨e, he⟩ := C10_batch_append
    "IN ns/doc2 ADD lemma OF lset WITH class x FOR w.2"
    [(("ns", "doc1"), [({} : Edit)])]
    [(("ns", "doc1"),
      [({} : Edit),
       { editform := "new", targets := ["w.2"],
         actor := { type? := some "lemma", set? := some "lset", id? := none },
         assignments := [("class", .str "x")],
         action? := some "add", correctionset? := none,
         correctionclass? := none }]),
     (("ns", "doc2"),
      [{ editform := "new", targets := ["w.2"],
         actor := { type? := some "lemma", set? := some "lset", id? := none },
         assignments := [("class", .str "x")],
         action? := some "add", correctionset? := none,
         correctionclass? := none }])] rfl
  have h1 := he ("ns", "doc1") [({} : Edit)] rfl
  have h2 : some ([({} : Edit)] ++ [e]) =
      some [({} : Edit),
        { editform := "new", targets := ["w.2"],
          actor := { type? := some "lemma", set? := some "lset", id? := none },
          assignments := [("class", .str "x")],
          action? := some "add", correctionset? := none,
          correctionclass? := none }] := h1.symm.trans rfl
  simp only [List.cons_append, List.nil_append, Option.some.injEq,
    List.cons.injEq, true_and, and_true] at h2
  rw [h1, h2]

/-! ## Helper lemmas about the text split -/

/-- Python `split` never returns an empty list of pieces. -/
theorem pysplit_ne_nil (cs : List Char) : pysplit cs ≠ [] := by
  cases cs with
  | nil => simp [pysplit]
  | cons c rest =>
    by_cases hc : c = ' '
    · simp [pysplit, hc]
    · simp only [pysplit, if_neg hc]
      cases pysplit rest <;> simp

/-- Joining the pieces of a Python `split(' ')` with single spaces gives
back the original text. -/
theorem joinSpace_pysplit (cs : List Char) : joinSpace (pysplit cs) = cs := by
  induction cs with
  | nil => rfl
  | cons c rest ih =>
    by_cases hc : c = ' '
    · subst hc
      simp only [pysplit, if_pos rfl]
      cases hps : pysplit rest with
      | nil => exact absurd hps (pysplit_ne_nil rest)
      | cons w ws =>
        rw [hps] at ih
        calc joinSpace ([] :: w :: ws) = ' ' :: joinSpace (w :: ws) := rfl
        _ = ' ' :: rest := by rw [ih]
    · simp only [pysplit, if_neg hc]
      cases hps : pysplit rest with
      | nil => exact absurd hps (pysplit_ne_nil rest)
      | cons w ws =>
        rw [hps] at ih
        cases ws with
        | nil =>
          show c :: w = c :: rest
          have hw : w = rest := ih
          rw [hw]
        | cons w2 ws2 =>
          show c :: (w ++ ' ' :: joinSpace (w2 :: ws2)) = c :: rest
          exact congrArg (c :: ·) ih

/-- The first index carrying the target's id in a child list whose
prefix avoids that id. -/
theorem indexOfTok_append (pre : List Tok) (target : Tok) (post : List Tok)
    (hid : ∀ t ∈ pre, t.tid ≠ target.tid) :
    indexOfTok (pre ++ target :: post) target.tid = some pre.length := by
  induction pre with
  | nil => simp [indexOfTok]
  | cons t rest ih =>
    simp only [List.cons_append, indexOfTok]
    rw [if_neg (hid t (by simp))]
    simp only [List.append_eq]
    rw [ih (fun t' ht' => hid t' (by simp [ht']))]
    rfl

/-- Inserting the reversed word list one by one at a fixed index splices
the words, in their original order, at that index. -/
theorem foldl_insert_splice (mk : List Char → Tok) :
    ∀ (ws : List (List Char)) (base : List Tok) (i : Nat), i ≤ base.length →
      ws.reverse.foldl (fun acc w => acc.take i ++ mk w :: acc.drop i) base =
      base.take i ++ ws.map mk ++ base.drop i := by
  intro ws
  induction ws with
  | nil => intro base i _; simp
  | cons w ws' ih =>
    intro base i h
    rw [List.reverse_cons, List.foldl_append]
    simp only [List.foldl_cons, List.foldl_nil]
    rw [ih base i h]
    have hlen : (base.take i).length = i := by rw [List.length_take]; omega
    rw [List.append_assoc, List.take_append_eq_append_take,
      List.drop_append_eq_append_drop, hlen]
    simp only [Nat.sub_self, List.take_zero, List.append_nil, List.drop_zero]
    have ht : List.take i (List.take i base) = List.take i base := by
      rw [List.take_take, Nat.min_self]
    have hd : List.drop i (List.take i base) = [] :=
      List.drop_eq_nil_of_le hlen.le
    rw [ht, hd, List.nil_append]
    simp [List.map_cons]

/-! ## Claim C7: splitting a token -/

/-- C7: a direct-form text split on a resident target token removes the
target and splices in, at the target's former position, one fresh token
per word of the assigned text, in the given order (so document order
relative to the surrounding tokens is preserved); and joining the new
tokens' texts with single spaces reproduces the assigned text. -/
theorem C7_text_split (pre post : List Tok) (target : Tok) (text : List Char)
    (mk : List Char → Tok)
    (hid : ∀ t ∈ pre, t.tid ≠ target.tid)
    (hmk : ∀ w, (mk w).txt = w) :
    splitApply (pre ++ target :: post) target.tid text mk =
      .ok (pre ++ (pysplit text).map mk ++ post) ∧
    joinSpace (((pysplit text).map mk).map Tok.txt) = text := by
  constructor
  · simp only [splitApply, indexOfTok_append pre target post hid]
    have h1 : (pre ++ target :: post).take pre.length = pre := List.take_left pre _
    have h2 : (pre ++ target :: post).drop (pre.length + 1) = post := by
      have he : pre ++ target :: post = (pre ++ [target]) ++ post := by simp
      have hl : (pre ++ [target]).length = pre.length + 1 := by simp
      rw [he, ← hl, List.drop_left]
    rw [h1, h2]
    rw [foldl_insert_splice mk (pysplit text) (pre ++ post) pre.length
      (by simp)]
    rw [List.take_left pre post, List.drop_left pre post, List.append_assoc]
  · rw [List.map_map]
    have hmap : List.map (Tok.txt ∘ mk) (pysplit text) =
        List.map id (pysplit text) :=
      List.map_congr_left (fun w _ => hmk w)
    rw [hmap, List.map_id, joinSpace_pysplit]

/-- C7, witness: splitting the token `w5` carrying `4 uur` with the
assigned text `4 uur` yields the tokens `4` and `uur`, whose texts
joined by a space give back `4 uur`. -/
theorem C7_witness :
    splitApply [⟨"w5", "4 uur".toList⟩] "w5" "4 uur".toList
        (fun w => ⟨"wnew", w⟩) =
      .ok [⟨"wnew", "4".toList⟩, ⟨"wnew", "uur".toList⟩] ∧
    joinSpace (((pysplit "4 uur".toList).map
        (fun w => (⟨"wnew", w⟩ : Tok))).map Tok.txt) = "4 uur".toList := by
  have h := C7_text_split [] [] ⟨"w5", "4 uur".toList⟩ "4 uur".toList
      (fun w => ⟨"wnew", w⟩) (by intro t ht; simp at ht) (fun w => rfl)
  exact ⟨h.1, h.2⟩

/-! ## Helper lemma about layer reuse -/

/-- Appending a span to the first matching layer leaves the layer list's
shape untouched: the non-matching prefix and everything after the first
match survive unchanged, and only the first match gains the span. -/
theorem appendToFirstMatch_decomp (p : SpanLayer → Bool) (sp : String × List String) :
    ∀ (pre : List SpanLayer) (l : SpanLayer) (post : List SpanLayer),
      (∀ l' ∈ pre, p l' = false) → p l = true →
      appendToFirstMatch (pre ++ l :: post) p sp =
        pre ++ { l with spans := l.spans ++ [sp] } :: post := by
  intro pre
  induction pre with
  | nil =>
    intro l post _ hl
    simp [appendToFirstMatch, hl]
  | cons x rest ih =>
    intro l post hpre hl
    have hx : p x = false := hpre x (by simp)
    simp only [List.cons_append, appendToFirstMatch, hx]
    simp only [Bool.false_eq_true, if_false, List.cons.injEq, true_and]
    exact ih l post (fun l' hl' => hpre l' (by simp [hl'])) hl

/-! ## Claim C6: creating a new span annotation -/

/-- C6: applying a span edit of form `new` (targets already resolved,
their structural-ancestor chains given) acts only at the common
ancestor of the targets; there, if a layer of the actor's annotation
type and resolved set already exists, the first such layer is reused
(no layer is added) and gains exactly one new span, otherwise exactly
one new layer is appended holding exactly one span; in both cases the
new span's class is the assigned class and its referenced elements are
the targets in the given order. -/
theorem C6_span_new (docmap : String → List SpanLayer) (chains : List (List String))
    (ty aset cls : String) (targets : List String) (a : String)
    (ha : commonAncestorOf chains = some a) :
    ∃ f, spanNewStep docmap chains ty aset cls targets = some f ∧
      (∀ x, x ≠ a → f x = docmap x) ∧
      ((docmap a).filter (layerMatches ty aset) = [] →
        f a = docmap a ++
          [{ latype := ty, laset := none, spans := [(cls, targets)] }]) ∧
      (∀ pre l post, docmap a = pre ++ l :: post →
        (∀ l' ∈ pre, layerMatches ty aset l' = false) →
        layerMatches ty aset l = true →
        f a = pre ++ { l with spans := l.spans ++ [(cls, targets)] } :: post) := by
  refine ⟨fun x => if x = a then spanNewNode (docmap x) ty aset cls targets
                   else docmap x, ?_, ?_, ?_, ?_⟩
  · simp [spanNewStep, ha]
  · intro x hx
    simp [hx]
  · intro hemp
    simp only [if_pos rfl]
    simp [spanNewNode, hemp]
  · intro pre l post hdecomp hpre hl
    simp only [if_pos rfl]
    have hlen : 1 ≤ ((docmap a).filter (layerMatches ty aset)).length := by
      rw [hdecomp]
      simp only [List.filter_append, List.filter_cons, hl, if_true,
        List.length_append, List.length_cons]
      omega
    simp only [spanNewNode, if_pos hlen]
    rw [hdecomp]
    exact appendToFirstMatch_decomp (layerMatches ty aset) (cls, targets)
      pre l post hpre hl

/-- C6, witness: a span edit over two targets sharing the ancestor
chain [s1, p1], on a document whose nodes carry no layers yet, creates
exactly one entity layer under s1 holding one span referencing the two
targets in order. -/
theorem C6_witness :
    ∃ f, spanNewStep (fun _ => []) [["s1", "p1"], ["s1", "p1"]]
        "entities" "set1" "per" ["w1", "w2"] = some f ∧
      f "s1" = [{ latype := "entities", laset := none,
                  spans := [("per", ["w1", "w2"])] }] := by
  obtain ⟨f, h1, _, h3, _⟩ := C6_span_new (fun _ => []) [["s1", "p1"], ["s1", "p1"]]
      "entities" "set1" "per" ["w1", "w2"] "s1" rfl
  exact ⟨f, h1, h3 rfl⟩

/-! ## Claim C4: parsing the documented ADD statement -/

/-- C4, counterexample: parsing the exact statement of the claim,
`IN ns/doc1 ADD pos OF penn-set WITH class=NN FOR w.1`, does not yield
an edit instruction at all: the tokenizer splits only on spaces, so
`class=NN` reaches `parseassignments` as a single word, which is not a
recognised field name, and parsing fails (line 367). -/
theorem C4_counterexample :
    parsequery "IN ns/doc1 ADD pos OF penn-set WITH class=NN FOR w.1" [] =
      .error "Unknown variable in WITH statement: class=NN" := rfl

/-- C4, amended: with the assignment written as two tokens
(`WITH class NN`, the concrete syntax `parseassignments` implements,
taking the value from the following word at line 355), the statement
parses to exactly one edit instruction keyed to (ns, doc1) with
action `add`, edit-form `new`, actor type `pos` and set `penn-set`,
assignments mapping `class` to `NN`, and target list `[w.1]`. -/
theorem C4_parse_add_pos :
    parsequery "IN ns/doc1 ADD pos OF penn-set WITH class NN FOR w.1" [] =
      .ok [(("ns", "doc1"),
        [{ editform := "new", targets := ["w.1"],
           actor := { type? := some "pos", set? := some "penn-set", id? := none },
           assignments := [("class", .str "NN")],
           action? := some "add", correctionset? := none,
           correctionclass? := none }])] := rfl

/-! ## Claim C5: DELETE without assignments -/

/-- C5: parsing `IN ns/doc1 DELETE t FOR w.1` — a DELETE whose actor's
annotation type is text content — produces an instruction clearing the
CLASS (`assignments = [class ↦ ""]`), not one clearing the text: the
guard of line 463 compares the actor's type string with the class
object `folia.TextContent` using `is`, which no string satisfies, so
the `assignments['text'] = ""` branch of line 464 is dead and the
empty-class branch of line 466 runs for every annotation type. -/
theorem C5_delete_textcontent_clears_class :
    parsequery "IN ns/doc1 DELETE t FOR w.1" [] =
      .ok [(("ns", "doc1"),
        [{ editform := "direct", targets := ["w.1"],
           actor := { type? := some "t", set? := none, id? := none },
           assignments := [("class", .str "")],
           action? := some "delete", correctionset? := none,
           correctionclass? := none }])] ∧
    actorTypeIsTextContent "t" = false := ⟨rfl, rfl⟩

/-! ## Claim C3: idle sweep of the document store -/

/-- C3: the sweep condition of line 155 is `t > time.time() +
self.expiretime`, so a document whose last change is in the past is
never selected for eviction, however stale: here a document last
changed at time 0, observed at time 1000000 with a 900-second expiry,
stays resident even though the spec reading of the sweep
(`autounloadKeysSpec`) evicts it. -/
theorem C3_autounload_keeps_idle_documents :
    autounloadKeys [(("ns", "doc"), 0)] 1000000 900 = [] ∧
    autounloadKeysSpec [(("ns", "doc"), 0)] 1000000 900 = [("ns", "doc")] :=
  ⟨rfl, rfl⟩

/-! ## Claim C9: the sentinel session id -/

/-- C9: a session id ending in `NOSID` leaves the tracker untouched in
`getdoc` (lines 1014-1017) and in `getelements` (lines 1200-1206), but
`annotate` (lines 1108-1109) has no sentinel guard: an edit request on
the request document writes a last-access timestamp for the sentinel
session id, contradicting the claim that no tracker state is ever
written for it. -/
theorem C9_sentinel_session :
    isNoSid "flatNOSID" = true ∧
    getdocTrack emptyTracker ("ns", "doc") "flatNOSID" 42 = emptyTracker ∧
    gelemStep emptyTracker ("ns", "doc") "flatNOSID" "e1" 42 = emptyTracker ∧
    (annotateTouch emptyTracker "ns" "doc" "doc" "flatNOSID" 42).lastaccess
        ("ns", "doc") "flatNOSID" = some 42 :=
  ⟨rfl, rfl, rfl, rfl⟩

/-! ## Helper lemmas about the session tracker -/

/-- One `getelements` iteration only touches the polled session's
entries. -/
theorem gelemStep_updateq_other (st : Tracker) (key : DocKey) (sid : Sid)
    (eid : String) (now : Nat) (k' : DocKey) (s' : Sid)
    (hne : ¬(k' = key ∧ s' = sid)) :
    (gelemStep st key sid eid now).updateq k' s' = st.updateq k' s' := by
  unfold gelemStep
  split
  · rfl
  · simp only
    split
    · simp [fupd, hne]
    · rfl

/-- The `getelements` loop only touches the polled session's queue. -/
theorem getelementsTrack_updateq_other :
    ∀ (eids : List String) (st : Tracker) (key : DocKey) (sid : Sid) (now : Nat)
      (k' : DocKey) (s' : Sid), ¬(k' = key ∧ s' = sid) →
      (getelementsTrack st key sid eids now).updateq k' s' = st.updateq k' s' := by
  intro eids
  induction eids with
  | nil => intro st key sid now k' s' _; rfl
  | cons eid rest ih =>
    intro st key sid now k' s' h
    simp only [getelementsTrack]
    rw [ih _ _ _ _ _ _ h, gelemStep_updateq_other st key sid eid now k' s' h]

/-- One `getelements` iteration keeps an already-empty queue empty
(erasing from the empty list is a no-op). -/
theorem gelemStep_queue_self (st : Tracker) (key : DocKey) (sid : Sid)
    (eid : String) (now : Nat) (h : st.updateq key sid = some []) :
    (gelemStep st key sid eid now).updateq key sid = some [] := by
  unfold gelemStep
  split
  · exact h
  · simp only
    split
    · rename_i q hq
      have hq2 : some q = some ([] : List String) := hq.symm.trans h
      obtain rfl : q = [] := Option.some.inj hq2
      simp [fupd]
    · rename_i hq
      exact Option.noConfusion (hq.symm.trans h)

/-- The `getelements` loop keeps an already-empty queue empty. -/
theorem getelementsTrack_queue_self :
    ∀ (eids : List String) (st : Tracker) (key : DocKey) (sid : Sid) (now : Nat),
      st.updateq key sid = some [] →
      (getelementsTrack st key sid eids now).updateq key sid = some [] := by
  intro eids
  induction eids with
  | nil => intro st key sid now h; exact h
  | cons eid rest ih =>
    intro st key sid now h
    simp only [getelementsTrack]
    exact ih _ _ _ _ (gelemStep_queue_self st key sid eid now h)

/-- One `getelements` iteration stamps the polled non-sentinel session's
last access. -/
theorem gelemStep_last_self (st : Tracker) (key : DocKey) (sid : Sid)
    (eid : String) (now : Nat) (hsid : isNoSid sid = false) :
    (gelemStep st key sid eid now).lastaccess key sid = some now := by
  unfold gelemStep
  rw [if_neg (by simp [hsid])]
  simp only
  split
  · simp [fupd]
  · simp [fupd]

/-- The `getelements` loop over a non-empty id list stamps the polled
non-sentinel session's last access. -/
theorem getelementsTrack_last :
    ∀ (eids : List String) (st : Tracker) (key : DocKey) (sid : Sid) (now : Nat),
      isNoSid sid = false → eids ≠ [] →
      (getelementsTrack st key sid eids now).lastaccess key sid = some now := by
  intro eids
  induction eids with
  | nil => intro st key sid now _ h; exact absurd rfl h
  | cons eid rest ih =>
    intro st key sid now hsid _
    simp only [getelementsTrack]
    cases rest with
    | nil => exact gelemStep_last_self st key sid eid now hsid
    | cons e2 r2 =>
      exact ih (gelemStep st key sid eid now) key sid now hsid (by simp)

/-- When no session is stale, the expiry sweep is the identity. -/
theorem checkexpire_of_fresh (st : Tracker) (now : Nat)
    (h : ∀ k s t, st.lastaccess k s = some t → now - t ≤ 3600 * 12) :
    checkexpire st now = st := by
  obtain ⟨uq, la⟩ := st
  simp only [checkexpire]
  have hexp : ∀ k s,
      (match uq k s, la k s with
        | some _, some t => decide (now - t > 3600 * 12)
        | _, _ => false) = false := by
    intro k s
    cases hq : uq k s with
    | none => cases la k s <;> rfl
    | some q =>
      cases hl : la k s with
      | none => rfl
      | some t =>
        simp only [decide_eq_false_iff_not]
        have := h k s t hl
        omega
  congr 1
  · funext k s
    rw [hexp k s]
    simp
  · funext k s
    rw [hexp k s]
    simp

/-- The expiry sweep either keeps a queue entry or removes it. -/
theorem checkexpire_updateq_cases (st : Tracker) (now : Nat) (k : DocKey)
    (s : Sid) :
    (checkexpire st now).updateq k s = st.updateq k s ∨
    (checkexpire st now).updateq k s = none := by
  simp only [checkexpire]
  split
  · exact Or.inr rfl
  · exact Or.inl rfl

/-! ## Claim C8: the poll operation -/

/-- C8: with no stale session in the tracker, polling a document
outside the test namespace with a non-sentinel session id (1) drains
and returns the session's entire pending queue, leaving the stored
queue empty, and stamps the session's last access when the drain was
non-empty; (2) returns an empty result, with the state untouched, for
an unknown session; and (3) never modifies any other session's queue,
for any document. -/
theorem C8_poll_drain (st : Tracker) (ns docid : String) (sid : Sid) (now : Nat)
    (hns : ns ≠ "testflat")
    (hfresh : ∀ k s t, st.lastaccess k s = some t → now - t ≤ 3600 * 12)
    (hsid : isNoSid sid = false) :
    (∀ ids, st.updateq (ns, docid) sid = some ids →
      (poll st ns docid sid now).1 = ids ∧
      (poll st ns docid sid now).2.updateq (ns, docid) sid = some [] ∧
      (ids ≠ [] →
        (poll st ns docid sid now).2.lastaccess (ns, docid) sid = some now)) ∧
    (st.updateq (ns, docid) sid = none → poll st ns docid sid now = ([], st)) ∧
    (∀ k' s', ¬(k' = (ns, docid) ∧ s' = sid) →
      (poll st ns docid sid now).2.updateq k' s' = st.updateq k' s') := by
  have hce := checkexpire_of_fresh st now hfresh
  have hpoll : poll st ns docid sid now =
      (match st.updateq (ns, docid) sid with
        | none => ([], st)
        | some ids =>
          let st2 : Tracker :=
            { st with updateq := fupd st.updateq (ns, docid) sid (some []) }
          if ids.isEmpty then ([], st2)
          else (ids, getelementsTrack st2 (ns, docid) sid ids now)) := by
    simp only [poll, if_neg hns, hce]
  refine ⟨?_, ?_, ?_⟩
  · intro ids hq
    rw [hpoll, hq]
    cases ids with
    | nil =>
      refine ⟨rfl, ?_, fun hne => absurd rfl hne⟩
      simp [fupd]
    | cons e r =>
      refine ⟨rfl, ?_, fun _ => ?_⟩
      · apply getelementsTrack_queue_self
        simp [fupd]
      · exact getelementsTrack_last (e :: r) _ (ns, docid) sid now hsid (by simp)
  · intro hq
    rw [hpoll, hq]
  · intro k' s' hne
    rw [hpoll]
    cases hq : st.updateq (ns, docid) sid with
    | none => rfl
    | some ids =>
      cases ids with
      | nil => simp [fupd, hne]
      | cons e r =>
        have hgo := getelementsTrack_updateq_other (e :: r)
            ({ st with updateq := fupd st.updateq (ns, docid) sid (some []) })
            (ns, docid) sid now k' s' hne
        simp only [List.isEmpty_cons, Bool.false_eq_true, if_false, hgo]
        simp [fupd, hne]

/-- C8, witness: session A at document (n, d) with pending queue [e1]
and a fresh timestamp drains [e1], ends with an empty queue, and has
its last access refreshed to the poll time. -/
theorem C8_witness :
    (poll trackerPoll "n" "d" "A" 200).1 = ["e1"] ∧
    (poll trackerPoll "n" "d" "A" 200).2.updateq ("n", "d") "A" = some [] ∧
    (poll trackerPoll "n" "d" "A" 200).2.lastaccess ("n", "d") "A" = some 200 := by
  have hfresh : ∀ k s t, trackerPoll.lastaccess k s = some t → 200 - t ≤ 3600 * 12 := by
    intro k s t h
    simp only [trackerPoll, fupd] at h
    split at h
    · injection h with h2
      omega
    · exact Option.noConfusion h
  have h := C8_poll_drain trackerPoll "n" "d" "A" 200 (by decide) hfresh rfl
  obtain ⟨ha, hb, hc⟩ := h.1 ["e1"] rfl
  exact ⟨ha, hb, hc (by simp)⟩

/-! ## Claim C1: notifying the other sessions of an edit -/

/-- C1: after a successful edit batch by session A on a document, the
affected element ids are appended to the pending queue of every other
registered session B, while A's own queue is untouched; hence if A's
queue was empty (or A was unregistered) beforehand, A's next poll on
that document returns an empty result. -/
theorem C1_enqueue_and_poll (st : Tracker) (ns docid : String) (A B : Sid)
    (ids qB : List String) (now : Nat)
    (hAB : B ≠ A) (hB : st.updateq (ns, docid) B = some qB)
    (hA : st.updateq (ns, docid) A = none ∨ st.updateq (ns, docid) A = some []) :
    (enqueueUpdates st (ns, docid) A ids).updateq (ns, docid) B =
      some (qB ++ ids) ∧
    (enqueueUpdates st (ns, docid) A ids).updateq (ns, docid) A =
      st.updateq (ns, docid) A ∧
    (poll (enqueueUpdates st (ns, docid) A ids) ns docid A now).1 = [] := by
  refine ⟨?_, ?_, ?_⟩
  · simp [enqueueUpdates, hAB, hB]
  · simp [enqueueUpdates]
  · by_cases hns : ns = "testflat"
    · simp [poll, hns]
    · simp only [poll, if_neg hns]
      have hA1 : (enqueueUpdates st (ns, docid) A ids).updateq (ns, docid) A =
          st.updateq (ns, docid) A := by simp [enqueueUpdates]
      rcases checkexpire_updateq_cases (enqueueUpdates st (ns, docid) A ids) now
          (ns, docid) A with hc | hc
      · rw [hA1] at hc
        rcases hA with h | h
        · rw [h] at hc
          rw [hc]
        · rw [h] at hc
          rw [hc]
          rfl
      · rw [hc]

/-- C1, witness: on a tracker where sessions A and B both hold empty
queues at (n, d), an edit by A affecting [e1] puts [e1] on B's queue,
leaves A's queue as it was, and A's next poll returns nothing. -/
theorem C1_witness :
    (enqueueUpdates trackerAB ("n", "d") "A" ["e1"]).updateq ("n", "d") "B" =
      some ([] ++ ["e1"]) ∧
    (enqueueUpdates trackerAB ("n", "d") "A" ["e1"]).updateq ("n", "d") "A" =
      trackerAB.updateq ("n", "d") "A" ∧
    (poll (enqueueUpdates trackerAB ("n", "d") "A" ["e1"]) "n" "d" "A" 5).1 = [] :=
  C1_enqueue_and_poll trackerAB "n" "d" "A" "B" ["e1"] [] 5 (by decide) rfl
    (Or.inr rfl)

end FoliaDocServe
